import Mathlib

/-!
Verification of the graph-augmented retrieval pipeline of a hybrid RAG system.

The definitions below are a shallow embedding of the Python source:
`src/services/graph_rag.py` (entity/relationship extraction and graph queries),
`src/services/rag_service.py` (retrieval fusion), and
`src/graphdb/neo4j_service.py` (the native-graph store wrapper).

External capabilities (LLM generation, vector search, the Neo4j driver) are
modelled as explicit function parameters; the relational store (SQLAlchemy
session plus SQLite tables, whose session configuration lives in the
repository's `src/database.py`, not included here) is modelled as an explicit
`Store` value threaded through the operations.  Per the specification, entity
queries inside one extraction call see the rows added earlier in the same call.
-/

namespace HybridRAG

/-- Whitespace characters as recognised by Python's `str.strip()` and `\s`. -/
def pySpace (c : Char) : Bool :=
  c = ' ' || c = '\t' || c = '\n' || c = '\r' || c = '\x0b' || c = '\x0c'

/-- Python `str.strip()` on a character list. -/
def stripL (s : List Char) : List Char :=
  ((s.dropWhile pySpace).reverse.dropWhile pySpace).reverse

/-- Python `str.strip()`. -/
def pyStrip (s : String) : String :=
  String.mk (stripL s.toList)

/-- Lowercase a string, character by character (Python `str.lower()` on ASCII). -/
def lowerS (s : String) : String :=
  String.mk (s.toList.map Char.toLower)

/-- Uppercase a string, character by character (Python `str.upper()` on ASCII). -/
def upperS (s : String) : String :=
  String.mk (s.toList.map Char.toUpper)

/-- `isPrefixL pat s` tests whether `pat` is a prefix of `s`. -/
def isPrefixL : List Char → List Char → Bool
  | [], _ => true
  | _ :: _, [] => false
  | a :: as, b :: bs => a = b && isPrefixL as bs

/-- `isSubL pat s` tests whether `pat` occurs contiguously inside `s`. -/
def isSubL (pat : List Char) : List Char → Bool
  | [] => pat.isEmpty
  | b :: bs => isPrefixL pat (b :: bs) || isSubL pat bs

/-- Python's substring test `pat in s`. -/
def containsSub (s pat : String) : Bool :=
  isSubL pat.toList s.toList

/-- Case-insensitive substring test, modelling SQL `ILIKE '%pat%'`. -/
def substrCI (pat s : String) : Bool :=
  isSubL (lowerS pat).toList (lowerS s).toList

/-- Split a list at the first occurrence of `c`: returns the (possibly empty)
prefix before the first `c` and the suffix after it, or `none` when `c` does
not occur.  This is the engine behind the greedy negated character classes
(`[^-]+`, `[^:]+`, `[^\]]+`) of the extraction regexes. -/
def splitAtFirst (c : Char) : List Char → Option (List Char × List Char)
  | [] => none
  | x :: xs =>
    if x = c then some ([], xs)
    else (splitAtFirst c xs).map (fun p => (x :: p.1, p.2))

/-- Split a character list at every character satisfying `p`,
keeping empty segments. -/
def splitAnyL (p : Char → Bool) : List Char → List (List Char)
  | [] => [[]]
  | c :: rest =>
    match splitAnyL p rest, p c with
    | r, true => [] :: r
    | [], false => [[c]]
    | h :: t, false => (c :: h) :: t

/-- Python `str.split('\n')`. -/
def splitLines (s : String) : List String :=
  (splitAnyL (fun c => c = '\n') s.toList).map String.mk

/-- Python `query.lower().split()`: split on whitespace runs, dropping empties. -/
def queryWords (s : String) : List String :=
  ((splitAnyL pySpace (lowerS s).toList).filter (fun w => w ≠ [])).map String.mk

/-- Python `line.startswith('-')`. -/
def startsDash (s : String) : Bool :=
  match s.toList with
  | '-' :: _ => true
  | _ => false

/-! ### Data model

Mirrors `src/models.py` (`Entity`, `Relationship`, `Document`) and
`src/schemas.py` (`GraphNode`, `GraphEdge`, `GraphResponse`,
`RetrievedChunk`, `QueryResponse`). Relationship rows carry no surrogate id
here because no specified behaviour depends on it. -/

structure EntityM where
  id : Nat
  name : String
  entity_type : String
  description : Option String
  document_id : Nat
  deriving Repr, DecidableEq

structure RelM where
  relationship_type : String
  description : Option String
  source_entity_id : Nat
  target_entity_id : Nat
  deriving Repr, DecidableEq

structure DocM where
  id : Nat
  user_id : Nat
  status : String
  deriving Repr, DecidableEq

/-- The relational store: documents, entities, relationships, and the
auto-increment counter for entity primary keys. -/
structure Store where
  documents : List DocM
  entities : List EntityM
  relationships : List RelM
  next_entity_id : Nat
  deriving Repr, DecidableEq

structure GraphNode where
  id : Nat
  name : String
  type : String
  description : Option String
  deriving Repr, DecidableEq

structure GraphEdge where
  source : Nat
  target : Nat
  type : String
  description : Option String
  deriving Repr, DecidableEq

structure GraphResponse where
  nodes : List GraphNode
  edges : List GraphEdge
  deriving Repr, DecidableEq

structure RetrievedChunk where
  content : String
  score : ℚ
  document_id : Nat
  deriving Repr, DecidableEq

structure QueryResponse where
  query : String
  answer : String
  retrieved_chunks : List RetrievedChunk
  entities_found : List EntityM
  graph_context : Option GraphResponse
  deriving Repr, DecidableEq

/-! ### Line parsers

`GraphRAGService._parse_entities` matches each candidate line against
`-\s*\[([^\]]+)\]\s*([^:]+):\s*(.+)` and
`GraphRAGService._parse_relationships` against
`-\s*([^-]+)\s*->\s*([^-]+)\s*->\s*([^:]+):\s*(.+)` (both `re.match`,
i.e. anchored at the start).  Because the character classes are negated and
greedy, each match point is forced to the first occurrence of the terminator
character, so the regexes denote the deterministic parsers below.  Every
captured group is subsequently `.strip()`ed by the Python code, which
coincides with stripping the raw segment. -/

/-- Parse `- [TYPE] Name: Description`; returns `(type, name, description)`. -/
def parseEntLine (line : String) : Option (String × String × String) :=
  match line.toList with
  | '-' :: s =>
    match (s.dropWhile pySpace) with
    | '[' :: s2 =>
      match splitAtFirst ']' s2 with
      | none => none
      | some (ty, r1) =>
        if ty = [] then none
        else
          match splitAtFirst ':' r1 with
          | none => none
          | some (nm, r2) =>
            if nm = [] || r2 = [] then none
            else some (String.mk (stripL ty), String.mk (stripL nm), String.mk (stripL r2))
    | _ => none
  | _ => none

/-- One `([^-]+)\s*->` step: the text before the first `-` (which must be
nonempty and immediately followed by `>`), and the rest after the arrow. -/
def parseArrowField (s : List Char) : Option (List Char × List Char) :=
  match splitAtFirst '-' s with
  | none => none
  | some (pre, rest) =>
    if pre = [] then none
    else
      match rest with
      | '>' :: rest2 => some (pre, rest2)
      | _ => none

/-- Parse `- Source -> Type -> Target: Description` on characters. -/
def parseRelLineL (cs : List Char) : Option (String × String × String × String) :=
  match cs with
  | '-' :: s =>
    match parseArrowField s with
    | none => none
    | some (src, r1) =>
      match parseArrowField r1 with
      | none => none
      | some (ty, r2) =>
        match splitAtFirst ':' r2 with
        | none => none
        | some (tgt, r3) =>
          if tgt = [] || r3 = [] then none
          else some (String.mk (stripL src), String.mk (stripL ty),
                     String.mk (stripL tgt), String.mk (stripL r3))
  | _ => none

/-- Parse `- Source -> Type -> Target: Description`;
returns `(source, type, target, description)`, each stripped. -/
def parseRelLine (line : String) : Option (String × String × String × String) :=
  parseRelLineL line.toList

/-! ### Section scanning

Both parsers iterate over `llm_response.split('\n')`, strip each line, and
track a section flag: in `_parse_entities` the flag is toggled on by any line
containing `ENTITIES:` (upper-cased) and off by `RELATIONSHIPS:`; in
`_parse_relationships` only `RELATIONSHIPS:` turns it on.  Marker lines are
skipped (`continue`); other lines are parsed only when the flag is set and
the line starts with `-`. -/

/-- Entity triples `(type, name, description)` harvested from a response. -/
def entityTriplesGo : Bool → List String → List (String × String × String)
  | _, [] => []
  | flag, l :: rest =>
    let line := pyStrip l
    if containsSub (upperS line) "ENTITIES:" then entityTriplesGo true rest
    else if containsSub (upperS line) "RELATIONSHIPS:" then entityTriplesGo false rest
    else if flag && startsDash line then
      match parseEntLine line with
      | some t => t :: entityTriplesGo flag rest
      | none => entityTriplesGo flag rest
    else entityTriplesGo flag rest

def entityTriples (llm_response : String) : List (String × String × String) :=
  entityTriplesGo false (splitLines llm_response)

/-- The stripped relationship-section lines starting with `-`. -/
def relLinesGo : Bool → List String → List String
  | _, [] => []
  | flag, l :: rest =>
    let line := pyStrip l
    if containsSub (upperS line) "RELATIONSHIPS:" then relLinesGo true rest
    else if flag && startsDash line then line :: relLinesGo flag rest
    else relLinesGo flag rest

def relSectionLines (llm_response : String) : List String :=
  relLinesGo false (splitLines llm_response)

/-! ### Entity storage with dedup (`GraphRAGService._parse_entities`)

For each matched entity line the service queries the session for an existing
`Entity` with the same `(document_id, name, entity_type)`; if none exists a
new row is added, otherwise the existing row is reused.  Rows added earlier in
the same call are visible to later existence checks (session autoflush). -/

def entKeyMatch (document_id : Nat) (nm ty : String) (e : EntityM) : Bool :=
  e.document_id == document_id && e.name == nm && e.entity_type == ty

def storeEntities (document_id : Nat) :
    List (String × String × String) → Store → List EntityM × Store
  | [], st => ([], st)
  | (ty, nm, ds) :: rest, st =>
    match st.entities.find? (entKeyMatch document_id nm ty) with
    | some e =>
      let (es, st') := storeEntities document_id rest st
      (e :: es, st')
    | none =>
      let e : EntityM := ⟨st.next_entity_id, nm, ty, some ds, document_id⟩
      let st1 : Store := { st with entities := st.entities ++ [e],
                                   next_entity_id := st.next_entity_id + 1 }
      let (es, st') := storeEntities document_id rest st1
      (e :: es, st')

def parse_entities (llm_response : String) (document_id : Nat) (st : Store) :
    List EntityM × Store :=
  storeEntities document_id (entityTriples llm_response) st

/-! ### Relationship storage (`GraphRAGService._parse_relationships`)

The service builds `entity_lookup = {entity.name.lower(): entity}` over the
entities of the same pass (later entries overwrite earlier ones), lowercases
the parsed source/target names, and persists a relationship only when both
lookups succeed. -/

/-- Last entity of the pass whose lowercased name equals `nm`
(dict-comprehension semantics: later keys overwrite earlier ones). -/
def lookupEnt (entities : List EntityM) (nm : String) : Option EntityM :=
  entities.foldl (fun acc e => if lowerS e.name = nm then some e else acc) none

/-- Turn one parsed quadruple `(source, type, target, description)` into a
relationship, when both names resolve. -/
def relOfQuad (entities : List EntityM)
    (q : String × String × String × String) : Option RelM :=
  match lookupEnt entities (lowerS q.1), lookupEnt entities (lowerS q.2.2.1) with
  | some e1, some e2 => some ⟨q.2.1, some q.2.2.2, e1.id, e2.id⟩
  | _, _ => none

/-- The relationship produced by one relationship-section line, if any. -/
def relOfLine (entities : List EntityM) (line : String) : Option RelM :=
  (parseRelLine line).bind (relOfQuad entities)

def parse_relationships (llm_response : String) (entities : List EntityM)
    (st : Store) : List RelM × Store :=
  let rels := (relSectionLines llm_response).filterMap (relOfLine entities)
  (rels, { st with relationships := st.relationships ++ rels })

/-! ### Extraction (`GraphRAGService.extract_entities_and_relationships`)

The single LLM invocation is modelled by its outcome `genResult`; any failure
of the invocation (or of the code inside the `try` block) is the `.error`
case, which the service swallows, returning empty lists and leaving the
store untouched. -/

def extract_entities_and_relationships (genResult : Except String String)
    (document_id : Nat) (st : Store) : (List EntityM × List RelM) × Store :=
  match genResult with
  | .error _ => (([], []), st)
  | .ok content =>
    let (ents, st1) := parse_entities content document_id st
    let (rels, st2) := parse_relationships content ents st1
    ((ents, rels), st2)

/-! ### User graph, SQL fallback (`GraphRAGService.get_user_graph`)

Nodes: the user's entities (via the `Entity ⋈ Document` join), optionally
restricted to `document_ids` — the Python guard is `if document_ids:`, so an
empty list behaves exactly like an absent filter and is modelled as such.
Edges: relationships whose *source* entity id is among the node ids. -/

def userEntities (st : Store) (user_id : Nat) (document_ids : List Nat) :
    List EntityM :=
  (st.entities.filter (fun e =>
      st.documents.any (fun d => d.id == e.document_id && d.user_id == user_id))).filter
    (fun e => document_ids.isEmpty || document_ids.contains e.document_id)

def nodeOf (e : EntityM) : GraphNode := ⟨e.id, e.name, e.entity_type, e.description⟩

def edgeOf (r : RelM) : GraphEdge :=
  ⟨r.source_entity_id, r.target_entity_id, r.relationship_type, r.description⟩

def get_user_graph (st : Store) (user_id : Nat) (document_ids : List Nat) :
    GraphResponse :=
  let ents := userEntities st user_id document_ids
  let entity_ids := ents.map (fun e => e.id)
  ⟨ents.map nodeOf,
   (st.relationships.filter (fun r => entity_ids.contains r.source_entity_id)).map edgeOf⟩

/-! ### Related-entity search (`GraphRAGService.find_related_entities`)

Seed: the first entity (in table order, across all users) whose name matches
`ILIKE '%entity_name%'`.  Then `max_depth` rounds of expansion: all
relationships touching the current frontier are fetched, and each endpoint
not yet collected is looked up and appended (dict insertion order). -/

def containsId (seen : List EntityM) (i : Nat) : Bool :=
  seen.any (fun e => e.id == i)

def findEntity (entities : List EntityM) (i : Nat) : Option EntityM :=
  entities.find? (fun e => e.id == i)

def selectRels (rels : List RelM) (current : List Nat) : List RelM :=
  rels.filter (fun r =>
    current.contains r.source_entity_id || current.contains r.target_entity_id)

def candidateIds (rels : List RelM) (current : List Nat) : List Nat :=
  (selectRels rels current).flatMap (fun r => [r.source_entity_id, r.target_entity_id])

def addCands (entities : List EntityM) :
    List EntityM → List Nat → List Nat → List EntityM × List Nat
  | seen, next, [] => (seen, next)
  | seen, next, i :: rest =>
    if containsId seen i then addCands entities seen next rest
    else
      match findEntity entities i with
      | some e => addCands entities (seen ++ [e]) (next ++ [i]) rest
      | none => addCands entities seen next rest

def bfsLoop (entities : List EntityM) (rels : List RelM) :
    Nat → List EntityM → List Nat → List EntityM
  | 0, seen, _ => seen
  | fuel + 1, seen, current =>
    let p := addCands entities seen [] (candidateIds rels current)
    if p.2.isEmpty then p.1 else bfsLoop entities rels fuel p.1 p.2

def find_related_entities (st : Store) (entity_name : String)
    (max_depth : Nat) : List EntityM :=
  match st.entities.find? (fun e => substrCI entity_name e.name) with
  | none => []
  | some e => bfsLoop st.entities st.relationships max_depth [e] [e.id]

/-! ### Retrieval fusion (`RAGService`)

`query` resolves the user's completed documents (the `if document_ids:` guard
again treats an empty filter list as absent), fans out a per-document vector
search (failures logged and skipped), merges all chunks, sorts by score
descending (Python's stable sort) and truncates to `top_k`.  With
`use_graph`, `_find_query_entities` scans the user's entities for keyword
substring matches, pulls 1-hop related entities for each match, deduplicates
by id preserving first-seen order and caps the list at 10. -/

def eligibleDocs (st : Store) (user_id : Nat) (document_ids : List Nat) :
    List DocM :=
  (st.documents.filter (fun d => d.user_id == user_id && d.status == "completed")).filter
    (fun d => document_ids.isEmpty || document_ids.contains d.id)

/-- Per-document vector search results appended in document order;
a failing search contributes nothing (`except: continue`). -/
def allChunks (docs : List DocM)
    (search : DocM → Except String (List (String × ℚ))) : List RetrievedChunk :=
  docs.foldl
    (fun acc d =>
      match search d with
      | .ok results => acc ++ results.map (fun p => ⟨p.1, p.2, d.id⟩)
      | .error _ => acc)
    []

/-- The descending-score order used by `all_chunks.sort(key=..., reverse=True)`. -/
def descChunk (a b : RetrievedChunk) : Prop := b.score ≤ a.score

instance : DecidableRel descChunk := fun a b =>
  inferInstanceAs (Decidable (b.score ≤ a.score))

/-- Python's `list.sort` is a stable sort; `insertionSort` with the
descending-score order is the unique stable descending sort. -/
def sortChunks (l : List RetrievedChunk) : List RetrievedChunk :=
  l.insertionSort descChunk

def topChunks (docs : List DocM)
    (search : DocM → Except String (List (String × ℚ))) (top_k : Nat) :
    List RetrievedChunk :=
  (sortChunks (allChunks docs search)).take top_k

/-- Keyword-relevance test of `_find_query_entities`: the lowercased
`name description` text contains some query word as a substring. -/
def entityMatches (words : List String) (e : EntityM) : Bool :=
  words.any (fun w =>
    isSubL w.toList (lowerS (e.name ++ " " ++ e.description.getD "")).toList)

def matchedEntities (query : String) (user_id : Nat) (st : Store)
    (document_ids : List Nat) : List EntityM :=
  (userEntities st user_id document_ids).filter (entityMatches (queryWords query))

/-- Each keyword match contributes itself followed by its 1-hop related
entities (fetched by `find_related_entities`, which is not user-scoped). -/
def relevantEntities (query : String) (user_id : Nat) (st : Store)
    (document_ids : List Nat) : List EntityM :=
  (matchedEntities query user_id st document_ids).flatMap
    (fun e => e :: find_related_entities st e.name 1)

/-- Deduplicate by entity id, keeping the first occurrence. -/
def dedupById : List Nat → List EntityM → List EntityM
  | _, [] => []
  | seen, e :: rest =>
    if seen.contains e.id then dedupById seen rest
    else e :: dedupById (seen ++ [e.id]) rest

def find_query_entities (query : String) (user_id : Nat) (st : Store)
    (document_ids : List Nat) : List EntityM :=
  (dedupById [] (relevantEntities query user_id st document_ids)).take 10

/-- Context/prompt construction of `RAGService._generate_answer`:
numbered chunks, bulleted entities, and at most 5 relationship lines whose
endpoint names both resolve in the graph node list. -/
def relationshipLines (g : GraphResponse) : List String :=
  (g.edges.take 5).filterMap (fun e =>
    match g.nodes.find? (fun n => n.id == e.source),
          g.nodes.find? (fun n => n.id == e.target) with
    | some sn, some tn => some ("- " ++ sn.name ++ " " ++ e.type ++ " " ++ tn.name)
    | _, _ => none)

def buildContext (chunks : List RetrievedChunk) (entities : List EntityM)
    (graph : Option GraphResponse) : String :=
  String.intercalate "\n"
    ((if chunks.isEmpty then [] else
        "Retrieved Information:" ::
          (List.enumFrom 1 chunks).map (fun p => "\n[" ++ toString p.1 ++ "] " ++ p.2.content))
      ++ (if entities.isEmpty then [] else
        "\n\nRelevant Entities:" ::
          entities.map (fun e =>
            "- " ++ e.name ++ " (" ++ e.entity_type ++ ")" ++
              match e.description with
              | some d => " - " ++ d
              | none => ""))
      ++ (match graph with
          | some g => if g.edges.isEmpty then [] else "\n\nRelationships:" :: relationshipLines g
          | none => []))

/-- `_generate_answer`: one generation-capability call; a failure degrades to
an explicit error string rather than an exception. -/
def generate_answer (gen : String → Except String String) (query : String)
    (chunks : List RetrievedChunk) (entities : List EntityM)
    (graph : Option GraphResponse) : String :=
  match gen (buildContext chunks entities graph ++ "\n\nQuestion: " ++ query) with
  | .ok t => t
  | .error e => "Error generating answer: " ++ e

/-- `RAGService.query`. -/
def ragQuery (query_text : String) (user_id : Nat) (st : Store)
    (search : DocM → Except String (List (String × ℚ)))
    (gen : String → Except String String)
    (top_k : Nat) (use_graph : Bool) (document_ids : List Nat) : QueryResponse :=
  let documents := eligibleDocs st user_id document_ids
  if documents.isEmpty then
    ⟨query_text, "No documents found. Please upload documents first.", [], [], none⟩
  else
    let retrieved := topChunks documents search top_k
    let entities := if use_graph then find_query_entities query_text user_id st document_ids else []
    let graph_context :=
      if use_graph && !entities.isEmpty then
        some (get_user_graph st user_id document_ids)
      else none
    ⟨query_text, generate_answer gen query_text retrieved entities graph_context,
     retrieved, entities, graph_context⟩

/-! ### The Neo4j-backed Knowledge Graph Store (`Neo4jService`)

The driver either failed to initialise (`none` — the permanent fallback
state) or is connected, in which case the behaviour of each Cypher query is a
field of an abstract backend; the wrapper only guards every operation with
`if not self.driver: return <empty value>`. -/

structure GraphStats where
  entities : Nat
  relationships : Nat
  documents : Nat
  deriving Repr, DecidableEq

structure RelatedRecord where
  id : Nat
  name : String
  type : String
  description : Option String
  distance : Nat
  deriving Repr, DecidableEq

structure PathNode where
  id : Nat
  name : String
  type : String
  deriving Repr, DecidableEq

/-- Abstract native-graph backend over driver states `σ`. -/
structure GraphBackend (σ : Type) where
  runCreateEntity : σ → Nat → String → String → Option String → Nat → Nat → σ
  runCreateRelationship : σ → Nat → Nat → Nat → String → Option String → σ
  runGetDocumentGraph : σ → Nat → GraphResponse
  runGetUserGraph : σ → Nat → List Nat → GraphResponse
  runFindRelatedEntities : σ → String → Nat → Nat → List RelatedRecord
  runFindShortestPath : σ → String → String → Nat → Option (List PathNode)
  runDeleteDocumentGraph : σ → Nat → σ
  runGetStatistics : σ → Nat → GraphStats

/-- A `Neo4jService` value: `none` models `self.driver is None`. -/
abbrev Neo4j (σ : Type) := Option (GraphBackend σ × σ)

def Neo4j.is_available {σ : Type} (svc : Neo4j σ) : Bool :=
  match svc with
  | none => false
  | some _ => true

def Neo4j.create_entity {σ : Type} (svc : Neo4j σ) (entity_id : Nat)
    (name entity_type : String) (description : Option String)
    (document_id user_id : Nat) : Neo4j σ :=
  match svc with
  | none => none
  | some (b, s) =>
    some (b, b.runCreateEntity s entity_id name entity_type description document_id user_id)

def Neo4j.create_relationship {σ : Type} (svc : Neo4j σ) (relationship_id
    source_entity_id target_entity_id : Nat) (relationship_type : String)
    (description : Option String) : Neo4j σ :=
  match svc with
  | none => none
  | some (b, s) =>
    some (b, b.runCreateRelationship s relationship_id source_entity_id
      target_entity_id relationship_type description)

def Neo4j.get_document_graph {σ : Type} (svc : Neo4j σ) (document_id : Nat) :
    GraphResponse :=
  match svc with
  | none => ⟨[], []⟩
  | some (b, s) => b.runGetDocumentGraph s document_id

def Neo4j.get_user_graph {σ : Type} (svc : Neo4j σ) (user_id : Nat)
    (document_ids : List Nat) : GraphResponse :=
  match svc with
  | none => ⟨[], []⟩
  | some (b, s) => b.runGetUserGraph s user_id document_ids

def Neo4j.find_related_entities {σ : Type} (svc : Neo4j σ)
    (entity_name : String) (user_id max_depth : Nat) : List RelatedRecord :=
  match svc with
  | none => []
  | some (b, s) => b.runFindRelatedEntities s entity_name user_id max_depth

def Neo4j.find_shortest_path {σ : Type} (svc : Neo4j σ)
    (entity1_name entity2_name : String) (user_id : Nat) :
    Option (List PathNode) :=
  match svc with
  | none => none
  | some (b, s) => b.runFindShortestPath s entity1_name entity2_name user_id

def Neo4j.delete_document_graph {σ : Type} (svc : Neo4j σ)
    (document_id : Nat) : Neo4j σ :=
  match svc with
  | none => none
  | some (b, s) => some (b, b.runDeleteDocumentGraph s document_id)

def Neo4j.get_statistics {σ : Type} (svc : Neo4j σ) (user_id : Nat) :
    GraphStats :=
  match svc with
  | none => ⟨0, 0, 0⟩
  | some (b, s) => b.runGetStatistics s user_id

/-! ### Graph reachability

`adjacent` is the undirected edge relation induced by the relationship rows;
`reachIn n a b` says `b` is within graph distance `n` of `a`. -/

def adjacent (rels : List RelM) (a b : Nat) : Prop :=
  ∃ r ∈ rels, (r.source_entity_id = a ∧ r.target_entity_id = b) ∨
              (r.source_entity_id = b ∧ r.target_entity_id = a)

instance (rels : List RelM) (a b : Nat) : Decidable (adjacent rels a b) :=
  inferInstanceAs (Decidable (∃ r ∈ rels, _ ∨ _))

def reachIn (rels : List RelM) : Nat → Nat → Nat → Prop
  | 0, a, b => b = a
  | n + 1, a, b => reachIn rels n a b ∨ ∃ c, reachIn rels n a c ∧ adjacent rels c b

/-- Store well-formedness: every relationship endpoint is the id of some
entity row. -/
def wfStore (st : Store) : Prop :=
  ∀ r ∈ st.relationships,
    (∃ e ∈ st.entities, e.id = r.source_entity_id) ∧
    (∃ e ∈ st.entities, e.id = r.target_entity_id)

instance (st : Store) : Decidable (wfStore st) :=
  inferInstanceAs (Decidable (∀ r ∈ _, _ ∧ _))

/-- Every relationship row joins two entity rows of one document. -/
def sameDocRels (st : Store) : Prop :=
  ∀ r ∈ st.relationships, ∃ e1 ∈ st.entities, ∃ e2 ∈ st.entities,
    e1.id = r.source_entity_id ∧ e2.id = r.target_entity_id ∧
    e1.document_id = e2.document_id

instance (st : Store) : Decidable (sameDocRels st) :=
  inferInstanceAs (Decidable (∀ r ∈ _, ∃ e1 ∈ _, ∃ e2 ∈ _, _))

/-! ## Theorems -/

instance : IsTotal RetrievedChunk descChunk :=
  ⟨fun a b => le_total b.score a.score⟩

instance : IsTrans RetrievedChunk descChunk :=
  ⟨fun _ _ _ h1 h2 => le_trans h2 h1⟩

/-- The worked example of the specification: per-document score lists
`[0.9, 0.5]` and `[0.8, 0.3]`. -/
def exampleSearch : DocM → Except String (List (String × ℚ)) :=
  fun d =>
    if d.id == 1 then .ok [("c1", mkRat 9 10), ("c2", mkRat 5 10)]
    else .ok [("c3", mkRat 8 10), ("c4", mkRat 3 10)]

/-- Claim C1: `retrieved_chunks` is the global top-K of the merged
per-document results — the stable descending sort of all chunks (appended in
per-document order) truncated to `top_k`; it is sorted by score descending,
the sort is a permutation of the merged list, score ties keep the stable
relative order of first insertion, and on the specification's example
(scores `[0.9, 0.5]` and `[0.8, 0.3]`, `top_k = 3`) it yields
`[0.9, 0.8, 0.5]` in that order. -/
theorem c1_global_topk_merge (query_text : String) (user_id : Nat) (st : Store)
    (search : DocM → Except String (List (String × ℚ)))
    (gen : String → Except String String) (top_k : Nat) (use_graph : Bool)
    (document_ids : List Nat) :
    (ragQuery query_text user_id st search gen top_k use_graph document_ids).retrieved_chunks
        = topChunks (eligibleDocs st user_id document_ids) search top_k
      ∧ List.Sorted descChunk
          (ragQuery query_text user_id st search gen top_k use_graph
            document_ids).retrieved_chunks
      ∧ (sortChunks (allChunks (eligibleDocs st user_id document_ids) search)).Perm
          (allChunks (eligibleDocs st user_id document_ids) search)
      ∧ (∀ a b, List.Sublist [a, b] (allChunks (eligibleDocs st user_id document_ids) search) →
          descChunk a b →
          List.Sublist [a, b]
            (sortChunks (allChunks (eligibleDocs st user_id document_ids) search)))
      ∧ (topChunks [⟨1, 1, "completed"⟩, ⟨2, 1, "completed"⟩] exampleSearch 3).map
          (fun c => c.score) = [mkRat 9 10, mkRat 8 10, mkRat 5 10] := by
  have heq :
      (ragQuery query_text user_id st search gen top_k use_graph
          document_ids).retrieved_chunks
        = topChunks (eligibleDocs st user_id document_ids) search top_k := by
    by_cases h : (eligibleDocs st user_id document_ids).isEmpty
    · rw [List.isEmpty_iff] at h
      simp [ragQuery, h, topChunks, sortChunks, allChunks]
    · simp [ragQuery, h]
  refine ⟨heq, ?_, List.perm_insertionSort _ _, ?_, by decide⟩
  · rw [heq]
    exact (List.sorted_insertionSort descChunk _).sublist (List.take_sublist _ _)
  · exact fun a b hab hd => List.pair_sublist_insertionSort hd hab

/-- Claim C1 witness: the stability conjunct applied to the tied pair is
discharged at the example input. -/
theorem c1_global_topk_merge_witness :
    (List.Sublist [⟨"c1", mkRat 9 10, 1⟩, ⟨"c3", mkRat 8 10, 2⟩]
        (allChunks (eligibleDocs ⟨[⟨1, 1, "completed"⟩, ⟨2, 1, "completed"⟩], [], [], 0⟩ 1 [])
          exampleSearch)) ∧
    descChunk ⟨"c1", mkRat 9 10, 1⟩ ⟨"c3", mkRat 8 10, 2⟩ ∧
    List.Sublist [⟨"c1", mkRat 9 10, 1⟩, ⟨"c3", mkRat 8 10, 2⟩]
      (sortChunks
        (allChunks (eligibleDocs ⟨[⟨1, 1, "completed"⟩, ⟨2, 1, "completed"⟩], [], [], 0⟩ 1 [])
          exampleSearch)) :=
  ⟨by decide, by decide,
    (c1_global_topk_merge "q" 1 ⟨[⟨1, 1, "completed"⟩, ⟨2, 1, "completed"⟩], [], [], 0⟩
          exampleSearch (fun _ => .ok "a") 3 false []).2.2.2.1 _ _ (by decide) (by decide)⟩

/-- Claim C7: if the generation invocation (or anything inside the guarded
`try` block) fails, `extract_entities_and_relationships` returns the pair of
empty lists and leaves the store untouched; as a total Lean function it can
never raise, so document ingestion is never aborted by an extraction
failure. -/
theorem c7_extract_fails_soft (err : String) (document_id : Nat) (st : Store) :
    extract_entities_and_relationships (.error err) document_id st = (([], []), st) := rfl

/-- Claim C7 witness: the fail-soft equation at a concrete error. -/
theorem c7_extract_fails_soft_witness :
    extract_entities_and_relationships (.error "timeout") 1 ⟨[], [], [], 0⟩ =
      (([], []), ⟨[], [], [], 0⟩) :=
  c7_extract_fails_soft "timeout" 1 ⟨[], [], [], 0⟩

/-- Claim C8: with no reachable backend (`driver = none`), every Knowledge
Graph Store operation is a no-op returning its documented empty/zero value —
empty graphs, empty list, `none` path, zero statistics, unchanged (still
absent) driver state for the mutating operations — and, being total, never
raises. -/
theorem c8_unavailable_backend_noops (σ : Type) (eid did uid rid sid tid md : Nat)
    (nm ty rty nm2 : String) (ds : Option String) (l : List Nat) :
    Neo4j.is_available (none : Neo4j σ) = false ∧
    Neo4j.create_entity (none : Neo4j σ) eid nm ty ds did uid = none ∧
    Neo4j.create_relationship (none : Neo4j σ) rid sid tid rty ds = none ∧
    Neo4j.get_document_graph (none : Neo4j σ) did = ⟨[], []⟩ ∧
    Neo4j.get_user_graph (none : Neo4j σ) uid l = ⟨[], []⟩ ∧
    Neo4j.find_related_entities (none : Neo4j σ) nm uid md = [] ∧
    Neo4j.find_shortest_path (none : Neo4j σ) nm nm2 uid = none ∧
    Neo4j.delete_document_graph (none : Neo4j σ) did = none ∧
    Neo4j.get_statistics (none : Neo4j σ) uid = ⟨0, 0, 0⟩ :=
  ⟨rfl, rfl, rfl, rfl, rfl, rfl, rfl, rfl, rfl⟩

/-- Claim C9: a user with zero eligible documents (no completed documents
surviving the optional filter — the Python guard `if document_ids:` treats an
empty filter list as absent) gets the literal no-documents response with
empty chunk and entity lists and absent graph context, not an error. -/
theorem c9_no_documents_short_circuit (query_text : String) (user_id : Nat)
    (st : Store) (search : DocM → Except String (List (String × ℚ)))
    (gen : String → Except String String) (top_k : Nat) (use_graph : Bool)
    (document_ids : List Nat)
    (h : eligibleDocs st user_id document_ids = []) :
    ragQuery query_text user_id st search gen top_k use_graph document_ids =
      ⟨query_text, "No documents found. Please upload documents first.", [], [], none⟩ := by
  simp [ragQuery, h]

/-- Claim C9 witness: a user whose only document is still `processing` has no
eligible documents, and querying yields the literal no-documents response. -/
theorem c9_no_documents_short_circuit_witness :
    eligibleDocs ⟨[⟨1, 1, "processing"⟩], [], [], 0⟩ 1 [] = [] ∧
    ragQuery "anything" 1 ⟨[⟨1, 1, "processing"⟩], [], [], 0⟩
        (fun _ => .error "down") (fun _ => .ok "answer") 5 true [] =
      ⟨"anything", "No documents found. Please upload documents first.", [], [], none⟩ :=
  ⟨by decide, c9_no_documents_short_circuit "anything" 1 _ _ _ 5 true [] (by decide)⟩

/-- If the lowercase-name lookup resolves, the result is an entity of the
pass whose lowercased name is the key. -/
theorem lookupEnt_some {l : List EntityM} {nm : String} {e : EntityM}
    (h : lookupEnt l nm = some e) : e ∈ l ∧ lowerS e.name = nm := by
  suffices H : ∀ (l : List EntityM) (acc : Option EntityM),
      l.foldl (fun acc e => if lowerS e.name = nm then some e else acc) acc = some e →
      (e ∈ l ∧ lowerS e.name = nm) ∨ acc = some e by
    rcases H l none h with h1 | h2
    · exact h1
    · exact absurd h2 (by simp)
  intro l
  induction l with
  | nil => exact fun acc h => Or.inr h
  | cons a t ih =>
    intro acc h
    rcases ih _ h with h1 | h2
    · exact Or.inl ⟨List.mem_cons_of_mem _ h1.1, h1.2⟩
    · change (if lowerS a.name = nm then some a else acc) = some e at h2
      by_cases hn : lowerS a.name = nm
      · rw [if_pos hn] at h2
        cases h2
        exact Or.inl ⟨List.mem_cons_self _ _, hn⟩
      · rw [if_neg hn] at h2
        exact Or.inr h2

/-- The relationship list persisted by `_parse_relationships` is exactly the
per-line results over the relationship-section lines. -/
theorem parse_relationships_eq (llm_response : String) (entities : List EntityM)
    (st : Store) :
    (parse_relationships llm_response entities st).1 =
      (relSectionLines llm_response).filterMap (relOfLine entities) := rfl

/-- Claim C2: a relationship line parsed from the generation output is
persisted if and only if both its source and target names resolve, by
case-insensitive exact match, to entities parsed in the same pass.  First
conjunct: nothing dangling — every persisted relationship's endpoints are
ids of entities of the pass.  Second: a parsed line with both names
resolving is persisted with exactly those endpoints.  Third: a parsed line
with an unresolved name contributes nothing. -/
theorem c2_relationship_referential_integrity (llm_response : String)
    (entities : List EntityM) (st : Store) :
    (∀ r ∈ (parse_relationships llm_response entities st).1,
        (∃ e1 ∈ entities, e1.id = r.source_entity_id) ∧
        (∃ e2 ∈ entities, e2.id = r.target_entity_id))
    ∧ (∀ line ∈ relSectionLines llm_response, ∀ s t g d,
        parseRelLine line = some (s, t, g, d) →
        ∀ e1 e2, lookupEnt entities (lowerS s) = some e1 →
          lookupEnt entities (lowerS g) = some e2 →
          (⟨t, some d, e1.id, e2.id⟩ : RelM) ∈
            (parse_relationships llm_response entities st).1)
    ∧ (∀ line ∈ relSectionLines llm_response, ∀ s t g d,
        parseRelLine line = some (s, t, g, d) →
        (lookupEnt entities (lowerS s) = none ∨ lookupEnt entities (lowerS g) = none) →
        relOfLine entities line = none) := by
  refine ⟨?_, ?_, ?_⟩
  · intro r hr
    rw [parse_relationships_eq] at hr
    obtain ⟨line, _, hsome⟩ := List.mem_filterMap.mp hr
    obtain ⟨⟨s, t, g, d⟩, hq, hquad⟩ := Option.bind_eq_some.mp hsome
    cases h1 : lookupEnt entities (lowerS s) with
    | none => simp [relOfQuad, h1] at hquad
    | some e1 =>
      cases h2 : lookupEnt entities (lowerS g) with
      | none => simp [relOfQuad, h1, h2] at hquad
      | some e2 =>
        simp only [relOfQuad, h1, h2, Option.some.injEq] at hquad
        subst hquad
        exact ⟨⟨e1, (lookupEnt_some h1).1, rfl⟩, ⟨e2, (lookupEnt_some h2).1, rfl⟩⟩
  · intro line hline s t g d hparse e1 e2 h1 h2
    rw [parse_relationships_eq]
    exact List.mem_filterMap.mpr
      ⟨line, hline, by simp [relOfLine, hparse, relOfQuad, h1, h2]⟩
  · intro line _ s t g d hparse hnone
    rcases hnone with h | h
    · simp [relOfLine, hparse, relOfQuad, h]
    · cases h1 : lookupEnt entities (lowerS s) <;>
        simp [relOfLine, hparse, relOfQuad, h1, h]

/-- Claim C2 witness: the persistence direction at a concrete pass. -/
theorem c2_relationship_referential_integrity_witness :
    (⟨"knows", some "friends", 1, 2⟩ : RelM) ∈
      (parse_relationships "RELATIONSHIPS:\n- Alice -> knows -> Bob: friends"
        [⟨1, "Alice", "PERSON", some "", 1⟩, ⟨2, "Bob", "PERSON", some "", 1⟩]
        ⟨[], [], [], 0⟩).1 :=
  (c2_relationship_referential_integrity
      "RELATIONSHIPS:\n- Alice -> knows -> Bob: friends"
      [⟨1, "Alice", "PERSON", some "", 1⟩, ⟨2, "Bob", "PERSON", some "", 1⟩]
      ⟨[], [], [], 0⟩).2.1
    "- Alice -> knows -> Bob: friends" (by decide)
    "Alice" "knows" "Bob" "friends" (by decide)
    ⟨1, "Alice", "PERSON", some "", 1⟩ ⟨2, "Bob", "PERSON", some "", 1⟩
    (by decide) (by decide)

/-- Claim C10 counterexample: a relationship line whose Target name contains
a hyphen (`Coca-Cola`), in the documented shape and with both named entities
parsed in the same pass, IS parsed and DOES produce a persisted
relationship — the target segment is matched by the colon-excluding class
`[^:]+`, not a hyphen-excluding one. -/
theorem c10_hyphen_counterexample :
    (parse_relationships "RELATIONSHIPS:\n- Alice -> works_at -> Coca-Cola: employer"
        [⟨1, "Alice", "PERSON", some "a", 1⟩, ⟨2, "Coca-Cola", "ORG", some "b", 1⟩]
        ⟨[], [], [], 0⟩).1
      = [⟨"works_at", some "employer", 1, 2⟩] := by decide

/-- Number of stored entity rows with a given `(document, name, type)` key. -/
def countKey (l : List EntityM) (document_id : Nat) (nm ty : String) : Nat :=
  (l.filter (entKeyMatch document_id nm ty)).length

theorem countKey_append (l1 l2 : List EntityM) (d : Nat) (nm ty : String) :
    countKey (l1 ++ l2) d nm ty = countKey l1 d nm ty + countKey l2 d nm ty := by
  simp [countKey, List.filter_append]

theorem countKey_zero_of_find_none {l : List EntityM} {d : Nat} {nm ty : String}
    (h : l.find? (entKeyMatch d nm ty) = none) : countKey l d nm ty = 0 := by
  have := List.find?_eq_none.mp h
  simp [countKey, List.filter_eq_nil_iff.mpr this]

theorem countKey_pos_of_find_some {l : List EntityM} {d : Nat} {nm ty : String}
    {e : EntityM} (h : l.find? (entKeyMatch d nm ty) = some e) :
    1 ≤ countKey l d nm ty := by
  have hm : e ∈ l.filter (entKeyMatch d nm ty) :=
    List.mem_filter.mpr ⟨List.mem_of_find?_eq_some h, List.find?_some h⟩
  have : l.filter (entKeyMatch d nm ty) ≠ [] := fun hne => by simp [hne] at hm
  exact Nat.one_le_iff_ne_zero.mpr (by simpa [countKey] using this)

/-- `storeEntities` only appends entity rows; documents and relationships are
untouched. -/
theorem storeEntities_shape (document_id : Nat) :
    ∀ (ts : List (String × String × String)) (st : Store), ∃ extra,
      (storeEntities document_id ts st).2.entities = st.entities ++ extra ∧
      (storeEntities document_id ts st).2.documents = st.documents ∧
      (storeEntities document_id ts st).2.relationships = st.relationships := by
  intro ts
  induction ts with
  | nil => exact fun st => ⟨[], by simp [storeEntities]⟩
  | cons t rest ih =>
    intro st
    obtain ⟨ty, nm, ds⟩ := t
    cases hf : st.entities.find? (entKeyMatch document_id nm ty) with
    | some e =>
      obtain ⟨extra, h1, h2, h3⟩ := ih st
      rcases hrec : storeEntities document_id rest st with ⟨es, st'⟩
      rw [hrec] at h1 h2 h3
      refine ⟨extra, ?_, ?_, ?_⟩ <;> simp [storeEntities, hf, hrec] <;> assumption
    | none =>
      obtain ⟨extra, h1, h2, h3⟩ := ih
        { st with entities := st.entities ++ [⟨st.next_entity_id, nm, ty, some ds, document_id⟩],
                  next_entity_id := st.next_entity_id + 1 }
      rcases hrec : storeEntities document_id rest
          { st with entities := st.entities ++ [⟨st.next_entity_id, nm, ty, some ds, document_id⟩],
                    next_entity_id := st.next_entity_id + 1 } with ⟨es, st'⟩
      rw [hrec] at h1 h2 h3
      exact ⟨⟨st.next_entity_id, nm, ty, some ds, document_id⟩ :: extra,
        by simp [storeEntities, hf, hrec]; simpa using h1,
        by simp [storeEntities, hf, hrec]; simpa using h2,
        by simp [storeEntities, hf, hrec]; simpa using h3⟩

theorem storeEntities_countKey_le (document_id : Nat)
    (ts : List (String × String × String)) (st : Store) (d : Nat) (nm ty : String) :
    countKey st.entities d nm ty ≤
      countKey (storeEntities document_id ts st).2.entities d nm ty := by
  obtain ⟨extra, h1, _, _⟩ := storeEntities_shape document_id ts st
  rw [h1, countKey_append]
  exact Nat.le_add_right _ _

/-- Dedup preservation: one storage pass never takes a key from at-most-one
row to more than one row. -/
theorem storeEntities_dedup (document_id : Nat) (nm ty : String) :
    ∀ (ts : List (String × String × String)) (st : Store),
      countKey st.entities document_id nm ty ≤ 1 →
      countKey (storeEntities document_id ts st).2.entities document_id nm ty ≤ 1 := by
  intro ts
  induction ts with
  | nil => intro st h; simpa [storeEntities] using h
  | cons t rest ih =>
    intro st h
    obtain ⟨ty', nm', ds⟩ := t
    cases hf : st.entities.find? (entKeyMatch document_id nm' ty') with
    | some e =>
      rcases hrec : storeEntities document_id rest st with ⟨es, st'⟩
      have := ih st h
      rw [hrec] at this
      simpa [storeEntities, hf, hrec] using this
    | none =>
      rcases hrec : storeEntities document_id rest
          { st with entities := st.entities ++ [⟨st.next_entity_id, nm', ty', some ds, document_id⟩],
                    next_entity_id := st.next_entity_id + 1 } with ⟨es, st'⟩
      have hst1 : countKey (st.entities ++ [⟨st.next_entity_id, nm', ty', some ds, document_id⟩])
          document_id nm ty ≤ 1 := by
        rw [countKey_append]
        by_cases hm : entKeyMatch document_id nm ty
            (⟨st.next_entity_id, nm', ty', some ds, document_id⟩ : EntityM) = true
        · have hk : nm' = nm ∧ ty' = ty := by
            have := hm
            simp [entKeyMatch] at this
            exact ⟨this.1, this.2⟩
          have h0 : countKey st.entities document_id nm ty = 0 :=
            countKey_zero_of_find_none (by rw [← hk.1, ← hk.2]; exact hf)
          have h2 : countKey [(⟨st.next_entity_id, nm', ty', some ds, document_id⟩ : EntityM)]
              document_id nm ty = 1 := by
            simp [countKey, List.filter_cons, hm]
          omega
        · rw [Bool.not_eq_true] at hm
          have h2 : countKey [(⟨st.next_entity_id, nm', ty', some ds, document_id⟩ : EntityM)]
              document_id nm ty = 0 := by
            simp [countKey, List.filter_cons, hm]
          omega
      have := ih { st with
          entities := st.entities ++ [⟨st.next_entity_id, nm', ty', some ds, document_id⟩],
          next_entity_id := st.next_entity_id + 1 } hst1
      rw [hrec] at this
      simpa [storeEntities, hf, hrec] using this

/-- Presence: if a key is among the parsed triples, at least one row with
that key ends up stored. -/
theorem storeEntities_key_present (document_id : Nat) (nm ty : String) :
    ∀ (ts : List (String × String × String)) (st : Store),
      (∃ ds, (ty, nm, ds) ∈ ts) →
      1 ≤ countKey (storeEntities document_id ts st).2.entities document_id nm ty := by
  intro ts
  induction ts with
  | nil => rintro st ⟨ds, h⟩; cases h
  | cons t rest ih =>
    rintro st ⟨ds, hmem⟩
    obtain ⟨ty', nm', ds'⟩ := t
    rcases List.mem_cons.mp hmem with heq | htail
    · simp only [Prod.mk.injEq] at heq
      obtain ⟨rfl, rfl, rfl⟩ := heq
      cases hf : st.entities.find? (entKeyMatch document_id nm ty) with
      | some e =>
        rcases hrec : storeEntities document_id rest st with ⟨es, st'⟩
        have hle := storeEntities_countKey_le document_id rest st document_id nm ty
        have hpos := countKey_pos_of_find_some hf
        rw [hrec] at hle
        have : 1 ≤ countKey st'.entities document_id nm ty := le_trans hpos hle
        simpa [storeEntities, hf, hrec] using this
      | none =>
        rcases hrec : storeEntities document_id rest
            { st with entities := st.entities ++ [⟨st.next_entity_id, nm, ty, some ds, document_id⟩],
                      next_entity_id := st.next_entity_id + 1 } with ⟨es, st'⟩
        have hle := storeEntities_countKey_le document_id rest
          { st with entities := st.entities ++ [⟨st.next_entity_id, nm, ty, some ds, document_id⟩],
                    next_entity_id := st.next_entity_id + 1 } document_id nm ty
        have hpos : 1 ≤ countKey
            (st.entities ++ [⟨st.next_entity_id, nm, ty, some ds, document_id⟩])
            document_id nm ty := by
          rw [countKey_append]
          have hm : entKeyMatch document_id nm ty
              (⟨st.next_entity_id, nm, ty, some ds, document_id⟩ : EntityM) = true := by
            simp [entKeyMatch]
          simp [countKey, List.filter_cons, hm]
        rw [hrec] at hle
        have : 1 ≤ countKey st'.entities document_id nm ty := le_trans hpos hle
        simpa [storeEntities, hf, hrec] using this
    · cases hf : st.entities.find? (entKeyMatch document_id nm' ty') with
      | some e =>
        rcases hrec : storeEntities document_id rest st with ⟨es, st'⟩
        have := ih st ⟨ds, htail⟩
        rw [hrec] at this
        simpa [storeEntities, hf, hrec] using this
      | none =>
        rcases hrec : storeEntities document_id rest
            { st with entities := st.entities ++ [⟨st.next_entity_id, nm', ty', some ds', document_id⟩],
                      next_entity_id := st.next_entity_id + 1 } with ⟨es, st'⟩
        have := ih { st with
            entities := st.entities ++ [⟨st.next_entity_id, nm', ty', some ds', document_id⟩],
            next_entity_id := st.next_entity_id + 1 } ⟨ds, htail⟩
        rw [hrec] at this
        simpa [storeEntities, hf, hrec] using this

/-- Claim C3: extracting the same `(document, name, type)` key more than
once — within a single extraction call or across two calls on the same
document — yields exactly one stored row: at-most-one-per-key is preserved,
all pre-existing rows survive (the existing row is reused, never replaced),
and if the key was parsed at all the stored count is exactly one. -/
theorem c3_entity_dedup (r1 r2 : String) (document_id : Nat) (st : Store)
    (nm ty : String) (h : countKey st.entities document_id nm ty ≤ 1) :
    countKey ((parse_entities r2 document_id
        (parse_entities r1 document_id st).2).2).entities document_id nm ty ≤ 1
    ∧ (∀ e ∈ st.entities,
        e ∈ ((parse_entities r2 document_id
          (parse_entities r1 document_id st).2).2).entities)
    ∧ (((∃ ds, (ty, nm, ds) ∈ entityTriples r1) ∨
        (∃ ds, (ty, nm, ds) ∈ entityTriples r2)) →
        countKey ((parse_entities r2 document_id
          (parse_entities r1 document_id st).2).2).entities document_id nm ty = 1) := by
  have h1 : countKey ((parse_entities r1 document_id st).2).entities document_id nm ty ≤ 1 :=
    storeEntities_dedup document_id nm ty (entityTriples r1) st h
  have h2 : countKey ((parse_entities r2 document_id
      (parse_entities r1 document_id st).2).2).entities document_id nm ty ≤ 1 :=
    storeEntities_dedup document_id nm ty (entityTriples r2) _ h1
  refine ⟨h2, ?_, ?_⟩
  · intro e he
    obtain ⟨x1, hx1, _, _⟩ := storeEntities_shape document_id (entityTriples r1) st
    obtain ⟨x2, hx2, _, _⟩ :=
      storeEntities_shape document_id (entityTriples r2) (parse_entities r1 document_id st).2
    show e ∈ (storeEntities document_id (entityTriples r2)
      (parse_entities r1 document_id st).2).2.entities
    rw [hx2]
    have hx1' : (parse_entities r1 document_id st).2.entities = st.entities ++ x1 := hx1
    rw [hx1']
    exact List.mem_append_left _ (List.mem_append_left _ he)
  · rintro (⟨ds, hds⟩ | ⟨ds, hds⟩)
    · have hp : 1 ≤ countKey ((parse_entities r1 document_id st).2).entities
          document_id nm ty :=
        storeEntities_key_present document_id nm ty (entityTriples r1) st ⟨ds, hds⟩
      have hle := storeEntities_countKey_le document_id (entityTriples r2)
        (parse_entities r1 document_id st).2 document_id nm ty
      exact Nat.le_antisymm h2 (le_trans hp hle)
    · have hp : 1 ≤ countKey ((parse_entities r2 document_id
          (parse_entities r1 document_id st).2).2).entities document_id nm ty :=
        storeEntities_key_present document_id nm ty (entityTriples r2) _ ⟨ds, hds⟩
      exact Nat.le_antisymm h2 hp

/-- Claim C3 witness: the same entity extracted twice within one call and
again in a second call ends up stored exactly once. -/
theorem c3_entity_dedup_witness :
    countKey (([] : List EntityM)) 1 "Alice" "PERSON" ≤ 1 ∧
    (∃ ds, ("PERSON", "Alice", ds) ∈
      entityTriples "ENTITIES:\n- [PERSON] Alice: A\n- [PERSON] Alice: B") ∧
    countKey ((parse_entities "ENTITIES:\n- [PERSON] Alice: C" 1
        (parse_entities "ENTITIES:\n- [PERSON] Alice: A\n- [PERSON] Alice: B" 1
          ⟨[], [], [], 0⟩).2).2).entities 1 "Alice" "PERSON" = 1 :=
  ⟨by decide, ⟨"A", by decide⟩,
    (c3_entity_dedup "ENTITIES:\n- [PERSON] Alice: A\n- [PERSON] Alice: B"
        "ENTITIES:\n- [PERSON] Alice: C" 1 ⟨[], [], [], 0⟩ "Alice" "PERSON"
        (by decide)).2.2 (Or.inl ⟨"A", by decide⟩)⟩

/-- Entity primary keys are unique. -/
def nodupEntityIds (st : Store) : Prop :=
  (st.entities.map (fun e => e.id)).Nodup

instance (st : Store) : Decidable (nodupEntityIds st) :=
  inferInstanceAs (Decidable (List.Nodup _))

theorem userEntities_mem {st : Store} {user_id : Nat} {document_ids : List Nat}
    {e : EntityM} :
    e ∈ userEntities st user_id document_ids ↔
      e ∈ st.entities ∧
      (∃ d ∈ st.documents, d.id = e.document_id ∧ d.user_id = user_id) ∧
      (document_ids = [] ∨ e.document_id ∈ document_ids) := by
  simp only [userEntities, List.mem_filter, List.any_eq_true, Bool.and_eq_true,
    beq_iff_eq, Bool.or_eq_true, List.isEmpty_iff, List.elem_iff]
  constructor
  · rintro ⟨⟨he, d, hd, h1, h2⟩, h3⟩
    exact ⟨he, ⟨d, hd, h1, h2⟩, h3⟩
  · rintro ⟨he, ⟨d, hd, h1, h2⟩, h3⟩
    exact ⟨⟨he, d, hd, h1, h2⟩, h3⟩

/-- Claim C4: for every user and optional document-id filter (the empty list
behaving as the absent filter, exactly as `if document_ids:` does),
`get_user_graph` on the relational fallback returns as nodes exactly the
user's entities restricted to the filter, and — on any store whose
relationship rows connect two entity rows of one document, as the extractor
guarantees, with unique entity ids — as edges exactly the relationships with
BOTH endpoints in that node set. -/
theorem c4_user_graph_nodes_edges (st : Store) (user_id : Nat)
    (document_ids : List Nat) (hnodup : nodupEntityIds st)
    (hsame : sameDocRels st) :
    (∀ n, n ∈ (get_user_graph st user_id document_ids).nodes ↔
        ∃ e ∈ st.entities,
          (∃ d ∈ st.documents, d.id = e.document_id ∧ d.user_id = user_id) ∧
          (document_ids = [] ∨ e.document_id ∈ document_ids) ∧ n = nodeOf e)
    ∧ (get_user_graph st user_id document_ids).edges =
        (st.relationships.filter (fun r =>
          ((userEntities st user_id document_ids).map (fun e => e.id)).contains
              r.source_entity_id &&
          ((userEntities st user_id document_ids).map (fun e => e.id)).contains
              r.target_entity_id)).map edgeOf := by
  constructor
  · intro n
    show n ∈ (userEntities st user_id document_ids).map nodeOf ↔ _
    rw [List.mem_map]
    constructor
    · rintro ⟨e, he, rfl⟩
      obtain ⟨h1, h2, h3⟩ := userEntities_mem.mp he
      exact ⟨e, h1, h2, h3, rfl⟩
    · rintro ⟨e, h1, h2, h3, rfl⟩
      exact ⟨e, userEntities_mem.mpr ⟨h1, h2, h3⟩, rfl⟩
  · show (st.relationships.filter (fun r =>
        ((userEntities st user_id document_ids).map (fun e => e.id)).contains
          r.source_entity_id)).map edgeOf = _
    refine congrArg (List.map edgeOf) (List.filter_congr ?_)
    intro r hr
    cases hc : ((userEntities st user_id document_ids).map (fun e => e.id)).contains
        r.source_entity_id with
    | false => simp
    | true =>
      obtain ⟨e, he, heid⟩ := List.mem_map.mp (List.elem_iff.mp hc)
      obtain ⟨e1, he1, e2, he2, hid1, hid2, hdoc⟩ := hsame r hr
      have hee1 : e = e1 := by
        refine List.inj_on_of_nodup_map hnodup ?_ he1 ?_
        · exact (userEntities_mem.mp he).1
        · rw [heid, hid1]
      subst hee1
      have he2mem : e2 ∈ userEntities st user_id document_ids := by
        obtain ⟨_, hown, hfil⟩ := userEntities_mem.mp he
        exact userEntities_mem.mpr ⟨he2, hdoc ▸ hown, hdoc ▸ hfil⟩
      have htgt : ((userEntities st user_id document_ids).map (fun e => e.id)).contains
          r.target_entity_id = true :=
        List.elem_iff.mpr (List.mem_map.mpr ⟨e2, he2mem, hid2⟩)
      rw [htgt]
      rfl

/-- Claim C4 witness: a two-user store with one same-document relationship;
the hypotheses are discharged concretely. -/
theorem c4_user_graph_nodes_edges_witness :
    nodupEntityIds ⟨[⟨1, 1, "completed"⟩, ⟨2, 2, "completed"⟩],
      [⟨1, "A", "T", none, 1⟩, ⟨2, "B", "T", none, 1⟩, ⟨3, "C", "T", none, 2⟩],
      [⟨"r", none, 1, 2⟩], 4⟩ ∧
    (get_user_graph ⟨[⟨1, 1, "completed"⟩, ⟨2, 2, "completed"⟩],
      [⟨1, "A", "T", none, 1⟩, ⟨2, "B", "T", none, 1⟩, ⟨3, "C", "T", none, 2⟩],
      [⟨"r", none, 1, 2⟩], 4⟩ 1 []).edges =
      ([⟨"r", none, 1, 2⟩] : List RelM).map edgeOf :=
  ⟨by decide,
    by
      have h := (c4_user_graph_nodes_edges
        ⟨[⟨1, 1, "completed"⟩, ⟨2, 2, "completed"⟩],
          [⟨1, "A", "T", none, 1⟩, ⟨2, "B", "T", none, 1⟩, ⟨3, "C", "T", none, 2⟩],
          [⟨"r", none, 1, 2⟩], 4⟩ 1 [] (by decide) (by decide)).2
      rw [h]
      decide⟩

theorem dedupById_sublist : ∀ (seen : List Nat) (l : List EntityM),
    List.Sublist (dedupById seen l) l := by
  intro seen l
  induction l generalizing seen with
  | nil => simp [dedupById]
  | cons e rest ih =>
    by_cases hc : seen.contains e.id = true
    · simp only [dedupById, if_pos hc]
      exact (ih seen).cons e
    · simp only [dedupById, if_neg hc]
      exact (ih (seen ++ [e.id])).cons₂ e

theorem dedupById_nodup : ∀ (seen : List Nat) (l : List EntityM),
    ((dedupById seen l).map (fun e => e.id)).Nodup ∧
    ∀ e ∈ dedupById seen l, e.id ∉ seen := by
  intro seen l
  induction l generalizing seen with
  | nil => simp [dedupById]
  | cons e rest ih =>
    by_cases hc : seen.contains e.id = true
    · simp only [dedupById, if_pos hc]
      exact ih seen
    · simp only [dedupById, if_neg hc, List.map_cons, List.nodup_cons]
      obtain ⟨hnd, hout⟩ := ih (seen ++ [e.id])
      refine ⟨⟨?_, hnd⟩, ?_⟩
      · intro hmm
        obtain ⟨e', he', heq⟩ := List.mem_map.mp hmm
        exact hout e' he' (by simp [← heq])
      · intro e' he'
        rcases List.mem_cons.mp he' with rfl | hmem
        · intro habs
          exact hc (List.elem_iff.mpr habs)
        · intro habs
          exact hout e' hmem (by simp [habs])

/-- Claim C6 counterexample: user 1 queries `bob`; their entity `Bob`
matches, and the unscoped `find_related_entities` seeds at the FIRST
`%bob%` entity in the table — user 2's `Bob` — so an entity owned by user 2
appears in `entities_found` of user 1's query. -/
theorem c6_cross_user_leak :
    ¬ (∀ e ∈ (ragQuery "bob" 1
        ⟨[⟨1, 2, "completed"⟩, ⟨2, 1, "completed"⟩],
         [⟨1, "Bob", "PERSON", some "", 1⟩, ⟨2, "Bob", "PERSON", some "", 2⟩],
         [], 3⟩
        (fun _ => .error "down") (fun _ => .ok "a") 5 true []).entities_found,
        ∃ d ∈ ([⟨1, 2, "completed"⟩, ⟨2, 1, "completed"⟩] : List DocM),
          d.id = e.document_id ∧ d.user_id = 1) := by decide

/-- Claim C6 as amended: the combined relevant-entity list is capped at 10,
deduplicated by entity id preserving first-seen order (it is a sublist of
the accumulation order), and each member is either a keyword match among the
querying user's (filtered) entities or came from the 1-hop expansion of such
a match — the expansion itself being unscoped, it may contribute entities of
other users. -/
theorem c6_entities_found_amended (query : String) (user_id : Nat) (st : Store)
    (document_ids : List Nat) :
    (find_query_entities query user_id st document_ids).length ≤ 10
    ∧ ((find_query_entities query user_id st document_ids).map (fun e => e.id)).Nodup
    ∧ List.Sublist (find_query_entities query user_id st document_ids)
        (relevantEntities query user_id st document_ids)
    ∧ (∀ e ∈ find_query_entities query user_id st document_ids,
        e ∈ matchedEntities query user_id st document_ids ∨
        ∃ m ∈ matchedEntities query user_id st document_ids,
          e ∈ find_related_entities st m.name 1)
    ∧ (∀ search gen top_k,
        (ragQuery query user_id st search gen top_k true document_ids).entities_found
          = find_query_entities query user_id st document_ids ∨
        (ragQuery query user_id st search gen top_k true document_ids).entities_found
          = []) := by
  refine ⟨?_, ?_, ?_, ?_, ?_⟩
  · exact List.length_take_le _ _
  · have h := (dedupById_nodup [] (relevantEntities query user_id st document_ids)).1
    have : (find_query_entities query user_id st document_ids).map (fun e => e.id) =
        ((dedupById [] (relevantEntities query user_id st document_ids)).map
          (fun e => e.id)).take 10 := by
      simp [find_query_entities, List.map_take]
    rw [this]
    exact h.sublist (List.take_sublist _ _)
  · exact (List.take_sublist _ _).trans (dedupById_sublist _ _)
  · intro e he
    have hmem : e ∈ relevantEntities query user_id st document_ids :=
      ((List.take_sublist _ _).trans (dedupById_sublist _ _)).mem he
    obtain ⟨m, hm, hem⟩ := List.mem_flatMap.mp hmem
    rcases List.mem_cons.mp hem with rfl | hrel
    · exact Or.inl hm
    · exact Or.inr ⟨m, hm, hrel⟩
  · intro search gen top_k
    by_cases h : (eligibleDocs st user_id document_ids).isEmpty
    · right; simp [ragQuery, h]
    · left; simp [ragQuery, h]

/-- Claim C6 witness: on the leak store the amended properties hold and the
pipeline equation picks the graph branch. -/
theorem c6_entities_found_amended_witness :
    (find_query_entities "bob" 1
      ⟨[⟨1, 2, "completed"⟩, ⟨2, 1, "completed"⟩],
       [⟨1, "Bob", "PERSON", some "", 1⟩, ⟨2, "Bob", "PERSON", some "", 2⟩],
       [], 3⟩ []).length ≤ 10 ∧
    ((ragQuery "bob" 1
      ⟨[⟨1, 2, "completed"⟩, ⟨2, 1, "completed"⟩],
       [⟨1, "Bob", "PERSON", some "", 1⟩, ⟨2, "Bob", "PERSON", some "", 2⟩],
       [], 3⟩ (fun _ => .error "down") (fun _ => .ok "a") 5 true []).entities_found
        = find_query_entities "bob" 1
            ⟨[⟨1, 2, "completed"⟩, ⟨2, 1, "completed"⟩],
             [⟨1, "Bob", "PERSON", some "", 1⟩, ⟨2, "Bob", "PERSON", some "", 2⟩],
             [], 3⟩ [] ∨
      (ragQuery "bob" 1
        ⟨[⟨1, 2, "completed"⟩, ⟨2, 1, "completed"⟩],
         [⟨1, "Bob", "PERSON", some "", 1⟩, ⟨2, "Bob", "PERSON", some "", 2⟩],
         [], 3⟩ (fun _ => .error "down") (fun _ => .ok "a") 5 true []).entities_found
        = []) :=
  ⟨(c6_entities_found_amended "bob" 1 _ []).1,
   (c6_entities_found_amended "bob" 1 _ []).2.2.2.2 _ _ 5⟩

/-! ### Analysis of the relationship-line regex on symbolic lines -/

theorem splitAtFirst_none (c : Char) : ∀ (l : List Char),
    splitAtFirst c l = none ↔ c ∉ l
  | [] => by simp [splitAtFirst]
  | x :: xs => by
    by_cases hx : x = c
    · subst hx
      simp [splitAtFirst]
    · have hstep : splitAtFirst c (x :: xs) =
          (splitAtFirst c xs).map (fun p => (x :: p.1, p.2)) := by
        simp [splitAtFirst, hx]
      rw [hstep, Option.map_eq_none', splitAtFirst_none c xs]
      constructor
      · intro h hmem
        rcases List.mem_cons.mp hmem with h1 | h1
        · exact hx h1.symm
        · exact h h1
      · intro h hmem
        exact h (List.mem_cons_of_mem _ hmem)

theorem splitAtFirst_some (c : Char) : ∀ (l p r : List Char),
    splitAtFirst c l = some (p, r) ↔ (l = p ++ c :: r ∧ c ∉ p)
  | [] => by
    intro p r
    constructor
    · intro h
      simp [splitAtFirst] at h
    · rintro ⟨h, _⟩
      exact absurd h (by simp)
  | x :: xs => by
    intro p r
    by_cases hx : x = c
    · subst hx
      constructor
      · intro h
        have h0 : splitAtFirst x (x :: xs) = some ([], xs) := by simp [splitAtFirst]
        rw [h0] at h
        have hpr := Option.some.inj h
        have h1 : p = [] := (congrArg Prod.fst hpr).symm
        have h2 : r = xs := (congrArg Prod.snd hpr).symm
        subst h1
        subst h2
        exact ⟨by simp, by simp⟩
      · rintro ⟨hdec, hnp⟩
        cases p with
        | nil =>
          simp only [List.nil_append, List.cons.injEq] at hdec
          simp [splitAtFirst, hdec.2]
        | cons y p' =>
          simp only [List.cons_append, List.cons.injEq] at hdec
          exact absurd (List.mem_cons_self _ _) (hdec.1 ▸ hnp)
    · constructor
      · intro h
        have h' : (splitAtFirst c xs).map (fun q => (x :: q.1, q.2)) = some (p, r) := by
          simpa [splitAtFirst, hx] using h
        obtain ⟨⟨p', r'⟩, hq, heq⟩ := Option.map_eq_some'.mp h'
        obtain ⟨hdec, hnp⟩ := (splitAtFirst_some c xs p' r').mp hq
        have h1 : p = x :: p' := (congrArg Prod.fst heq).symm
        have h2 : r = r' := (congrArg Prod.snd heq).symm
        subst h1
        subst h2
        refine ⟨by simp [hdec], ?_⟩
        intro hmem
        rcases List.mem_cons.mp hmem with h1 | h1
        · exact hx h1.symm
        · exact hnp h1
      · rintro ⟨hdec, hnp⟩
        cases p with
        | nil =>
          simp only [List.nil_append, List.cons.injEq] at hdec
          exact absurd hdec.1 hx
        | cons y p' =>
          simp only [List.cons_append, List.cons.injEq] at hdec
          obtain ⟨rfl, hdec2⟩ := hdec
          have hnp' : c ∉ p' := fun hm => hnp (List.mem_cons_of_mem _ hm)
          have := (splitAtFirst_some c xs p' r).mpr ⟨hdec2, hnp'⟩
          simp [splitAtFirst, hx, this]

theorem isPrefixL_append_self : ∀ (pat tail : List Char),
    isPrefixL pat (pat ++ tail) = true
  | [], _ => rfl
  | a :: as, tail => by simp [isPrefixL, isPrefixL_append_self as tail]

theorem isSubL_of_decomp : ∀ (l₁ pat l₂ : List Char),
    isSubL pat (l₁ ++ pat ++ l₂) = true
  | [], pat, l₂ => by
    cases pat with
    | nil => cases l₂ <;> simp [isSubL, isPrefixL]
    | cons a as => simp [isSubL, isPrefixL, isPrefixL_append_self as l₂]
  | x :: l₁, pat, l₂ => by
    have ih := isSubL_of_decomp l₁ pat l₂
    rw [List.append_assoc] at ih
    simp [isSubL]
    exact Or.inr ih

theorem parseArrowField_some_of {p rest : List Char} (hnp : '-' ∉ p)
    (hne : p ≠ []) : parseArrowField (p ++ '-' :: '>' :: rest) = some (p, rest) := by
  unfold parseArrowField
  rw [(splitAtFirst_some '-' (p ++ '-' :: '>' :: rest) p ('>' :: rest)).mpr ⟨rfl, hnp⟩]
  simp [hne]

theorem parseArrowField_none_of {p r : List Char} (hnp : '-' ∉ p)
    (hr : r.head? ≠ some '>') : parseArrowField (p ++ '-' :: r) = none := by
  unfold parseArrowField
  rw [(splitAtFirst_some '-' (p ++ '-' :: r) p r).mpr ⟨rfl, hnp⟩]
  by_cases hpe : p = []
  · simp [hpe]
  · simp only [if_neg hpe]
    split
    · rename_i rest2
      exact absurd rfl hr
    · rfl

/-- `parseArrowField` fails on `' ' :: A ++ ' ' :: rest` when `A` contains a
hyphen but no `->`: the negated class `[^-]+` stops at the first hyphen of
`A`, which is not followed by `>`. -/
theorem arrowField_blocked {A rest : List Char} (hmem : '-' ∈ A)
    (hA : isSubL ['-', '>'] A = false) :
    parseArrowField (' ' :: A ++ ' ' :: rest) = none := by
  cases hsp : splitAtFirst '-' A with
  | none => exact absurd hmem ((splitAtFirst_none '-' A).mp hsp)
  | some pr =>
    obtain ⟨p, r⟩ := pr
    obtain ⟨hdec, hnp⟩ := (splitAtFirst_some '-' A p r).mp hsp
    have hshape : ' ' :: A ++ ' ' :: rest = (' ' :: p) ++ '-' :: (r ++ ' ' :: rest) := by
      rw [hdec]; simp
    rw [hshape]
    apply parseArrowField_none_of
    · intro hmm
      rcases List.mem_cons.mp hmm with h | h
      · exact absurd h (by decide)
      · exact hnp h
    · cases r with
      | nil => simp
      | cons c r' =>
        intro habs
        have hc : c = '>' := by simpa using habs
        subst hc
        have hsub : isSubL ['-', '>'] A = true := by
          have hA' : A = p ++ ['-', '>'] ++ r' := by rw [hdec]; simp
          rw [hA']
          exact isSubL_of_decomp p ['-', '>'] r'
        rw [hsub] at hA
        cases hA

/-- `parseArrowField` succeeds on `' ' :: A ++ ' ' :: '-' :: '>' :: rest`
when `A` is hyphen-free, capturing `A` (with its surrounding spaces). -/
theorem arrowField_clean {A rest : List Char} (hmem : '-' ∉ A) :
    parseArrowField (' ' :: A ++ ' ' :: '-' :: '>' :: rest) =
      some (' ' :: A ++ [' '], rest) := by
  have hshape : ' ' :: A ++ ' ' :: '-' :: '>' :: rest
      = (' ' :: A ++ [' ']) ++ '-' :: '>' :: rest := by simp
  rw [hshape]
  apply parseArrowField_some_of
  · intro h
    rcases List.mem_append.mp h with h1 | h1
    · rcases List.mem_cons.mp h1 with h2 | h2
      · exact absurd h2 (by decide)
      · exact hmem h2
    · simp at h1
  · simp

theorem stripL_cons_space (l : List Char) : stripL (' ' :: l) = stripL l := by
  simp [stripL, List.dropWhile_cons, pySpace]

theorem dropWhile_concat_space : ∀ (l : List Char),
    List.dropWhile pySpace (l ++ [' ']) =
      if List.dropWhile pySpace l = [] then [] else List.dropWhile pySpace l ++ [' ']
  | [] => by simp [pySpace]
  | x :: l => by
    by_cases px : pySpace x = true
    · simp [List.dropWhile_cons, px, dropWhile_concat_space l]
    · simp [List.dropWhile_cons, px]

theorem stripL_concat_space (l : List Char) : stripL (l ++ [' ']) = stripL l := by
  unfold stripL
  rw [dropWhile_concat_space]
  by_cases h : List.dropWhile pySpace l = []
  · simp [h]
  · rw [if_neg h]
    rw [List.reverse_append]
    simp [List.dropWhile_cons, pySpace]

/-- A relationship line in the documented shape. -/
def mkRelLine (S T G D : String) : String :=
  "- " ++ S ++ " -> " ++ T ++ " -> " ++ G ++ ": " ++ D

theorem toList_append (a b : String) : (a ++ b).toList = a.toList ++ b.toList := rfl

theorem mkRelLine_toList (S T G D : String) :
    (mkRelLine S T G D).toList =
      '-' :: ' ' :: (S.toList ++ ' ' :: '-' :: '>' :: ' ' :: (T.toList ++
        ' ' :: '-' :: '>' :: ' ' :: (G.toList ++ ':' :: ' ' :: D.toList))) := by
  have h1 : "- ".toList = ['-', ' '] := rfl
  have h2 : " -> ".toList = [' ', '-', '>', ' '] := rfl
  have h3 : ": ".toList = [':', ' '] := rfl
  simp [mkRelLine, toList_append, h1, h2, h3]

theorem parseRelLineL_cons (s : List Char) :
    parseRelLineL ('-' :: s) =
      match parseArrowField s with
      | none => none
      | some (src, r1) =>
        match parseArrowField r1 with
        | none => none
        | some (ty, r2) =>
          match splitAtFirst ':' r2 with
          | none => none
          | some (tgt, r3) =>
            if tgt = [] || r3 = [] then none
            else some (String.mk (stripL src), String.mk (stripL ty),
                       String.mk (stripL tgt), String.mk (stripL r3)) := rfl

/-- Claim C10 as amended: in a relationship line of the documented shape, a
hyphen inside the Source name or the relationship Type (with no `->` inside
that segment) makes the regex fail — the line is silently skipped — because
those two segments are matched by the hyphen-excluding class `[^-]+`; but
the Target segment is matched by the colon-excluding class `[^:]+`, so with
clean Source and Type the line parses regardless of hyphens in the Target
name. -/
theorem c10_hyphen_amended (S T G D : String) :
    ('-' ∈ S.toList → isSubL ['-', '>'] S.toList = false →
      parseRelLine (mkRelLine S T G D) = none)
    ∧ ('-' ∉ S.toList → '-' ∈ T.toList → isSubL ['-', '>'] T.toList = false →
      parseRelLine (mkRelLine S T G D) = none)
    ∧ ('-' ∉ S.toList → '-' ∉ T.toList → ':' ∉ G.toList →
      parseRelLine (mkRelLine S T G D) =
        some (pyStrip S, pyStrip T, pyStrip G, pyStrip D)) := by
  have hline : parseRelLine (mkRelLine S T G D) =
      parseRelLineL ('-' :: ' ' :: (S.toList ++ ' ' :: '-' :: '>' :: ' ' :: (T.toList ++
        ' ' :: '-' :: '>' :: ' ' :: (G.toList ++ ':' :: ' ' :: D.toList)))) := by
    rw [parseRelLine, mkRelLine_toList]
  refine ⟨?_, ?_, ?_⟩
  · intro hS hA
    rw [hline, parseRelLineL_cons]
    have hblock : parseArrowField (' ' :: (S.toList ++ ' ' :: '-' :: '>' :: ' ' ::
        (T.toList ++ ' ' :: '-' :: '>' :: ' ' :: (G.toList ++ ':' :: ' ' :: D.toList))))
        = none := arrowField_blocked hS hA
    rw [hblock]
  · intro hS hT hTA
    rw [hline, parseRelLineL_cons]
    have hclean : parseArrowField (' ' :: (S.toList ++ ' ' :: '-' :: '>' :: ' ' ::
        (T.toList ++ ' ' :: '-' :: '>' :: ' ' :: (G.toList ++ ':' :: ' ' :: D.toList))))
        = some (' ' :: S.toList ++ [' '],
            ' ' :: (T.toList ++ ' ' :: '-' :: '>' :: ' ' ::
              (G.toList ++ ':' :: ' ' :: D.toList))) := arrowField_clean hS
    rw [hclean]
    dsimp only
    have hblock2 : parseArrowField (' ' :: (T.toList ++ ' ' :: '-' :: '>' :: ' ' ::
        (G.toList ++ ':' :: ' ' :: D.toList))) = none := arrowField_blocked hT hTA
    rw [hblock2]
  · intro hS hT hG
    rw [hline, parseRelLineL_cons]
    have hclean : parseArrowField (' ' :: (S.toList ++ ' ' :: '-' :: '>' :: ' ' ::
        (T.toList ++ ' ' :: '-' :: '>' :: ' ' :: (G.toList ++ ':' :: ' ' :: D.toList))))
        = some (' ' :: S.toList ++ [' '],
            ' ' :: (T.toList ++ ' ' :: '-' :: '>' :: ' ' ::
              (G.toList ++ ':' :: ' ' :: D.toList))) := arrowField_clean hS
    rw [hclean]
    dsimp only
    have hclean2 : parseArrowField (' ' :: (T.toList ++ ' ' :: '-' :: '>' :: ' ' ::
        (G.toList ++ ':' :: ' ' :: D.toList)))
        = some (' ' :: T.toList ++ [' '], ' ' :: (G.toList ++ ':' :: ' ' :: D.toList)) :=
      arrowField_clean hT
    rw [hclean2]
    dsimp only
    have hsplit : splitAtFirst ':' (' ' :: (G.toList ++ ':' :: ' ' :: D.toList)) =
        some (' ' :: G.toList, ' ' :: D.toList) := by
      apply (splitAtFirst_some ':' _ _ _).mpr
      refine ⟨by simp, ?_⟩
      intro h
      rcases List.mem_cons.mp h with h | h
      · exact absurd h (by decide)
      · exact hG h
    rw [hsplit]
    dsimp only
    simp [pyStrip, stripL_cons_space, stripL_concat_space]

/-- Claim C10 amended witness: a hyphenated Source is skipped; a hyphenated
Target parses and keeps its hyphen. -/
theorem c10_hyphen_amended_witness :
    parseRelLine (mkRelLine "Coca-Cola" "owns" "Acme" "d") = none ∧
    parseRelLine (mkRelLine "Alice" "works_at" "Coca-Cola" "d") =
      some ("Alice", "works_at", "Coca-Cola", "d") :=
  ⟨(c10_hyphen_amended "Coca-Cola" "owns" "Acme" "d").1 (by decide) (by decide),
   by
     have h := (c10_hyphen_amended "Alice" "works_at" "Coca-Cola" "d").2.2
       (by decide) (by decide) (by decide)
     rw [h]
     decide⟩

/-! ### BFS correctness for `find_related_entities` -/

theorem reachIn_succ {rels : List RelM} {n a b : Nat}
    (h : reachIn rels n a b) : reachIn rels (n + 1) a b := Or.inl h

theorem reachIn_mono {rels : List RelM} {a b : Nat} :
    ∀ {n m : Nat}, n ≤ m → reachIn rels n a b → reachIn rels m a b := by
  intro n m hnm h
  induction hnm with
  | refl => exact h
  | step _ ih => exact Or.inl ih

theorem containsId_append (l₁ l₂ : List EntityM) (i : Nat) :
    containsId (l₁ ++ l₂) i = (containsId l₁ i || containsId l₂ i) := by
  simp [containsId, List.any_append]

theorem containsId_iff {l : List EntityM} {i : Nat} :
    containsId l i = true ↔ ∃ e ∈ l, e.id = i := by
  simp [containsId, List.any_eq_true]

/-- The inner fold of one BFS round: it only appends, the appended entity
rows come from the candidate list and were unseen, every candidate with an
entity row ends up contained, and id-uniqueness is preserved. -/
theorem addCands_spec (entities : List EntityM) :
    ∀ (cs : List Nat) (seen : List EntityM) (next : List Nat),
    ∃ Δ : List EntityM,
      (addCands entities seen next cs).1 = seen ++ Δ ∧
      (addCands entities seen next cs).2 = next ++ Δ.map (fun e => e.id) ∧
      (∀ e ∈ Δ, e ∈ entities ∧ e.id ∈ cs ∧ containsId seen e.id = false) ∧
      (∀ i ∈ cs, (∃ e ∈ entities, e.id = i) →
        containsId (addCands entities seen next cs).1 i = true) ∧
      ((seen.map (fun e => e.id)).Nodup →
        ((addCands entities seen next cs).1.map (fun e => e.id)).Nodup)
  | [], seen, next => by
    refine ⟨[], by simp [addCands], by simp [addCands], by simp, by simp, by
      simp [addCands]⟩
  | i :: cs', seen, next => by
    by_cases hc : containsId seen i = true
    · obtain ⟨Δ, h1, h2, h3, h4, h5⟩ := addCands_spec entities cs' seen next
      have hstep : addCands entities seen next (i :: cs') =
          addCands entities seen next cs' := by
        simp [addCands, hc]
      rw [hstep]
      refine ⟨Δ, h1, h2, ?_, ?_, h5⟩
      · intro e he
        obtain ⟨g1, g2, g3⟩ := h3 e he
        exact ⟨g1, List.mem_cons_of_mem _ g2, g3⟩
      · intro j hj hrow
        rcases List.mem_cons.mp hj with rfl | hj'
        · rw [h1, containsId_append, hc]
          rfl
        · exact h4 j hj' hrow
    · cases hf : findEntity entities i with
      | some e =>
        obtain ⟨Δ', h1, h2, h3, h4, h5⟩ :=
          addCands_spec entities cs' (seen ++ [e]) (next ++ [i])
        have heid : e.id = i := by
          have := List.find?_some hf
          simpa [beq_iff_eq] using this
        have hmem : e ∈ entities := List.mem_of_find?_eq_some hf
        have hstep : addCands entities seen next (i :: cs') =
            addCands entities (seen ++ [e]) (next ++ [i]) cs' := by
          simp [addCands, hc, hf]
        rw [hstep]
        refine ⟨e :: Δ', by simp [h1], by simp [h2, heid], ?_, ?_, ?_⟩
        · intro e' he'
          rcases List.mem_cons.mp he' with rfl | he''
          · exact ⟨hmem, by simp [heid], by rw [heid]; simpa using hc⟩
          · obtain ⟨g1, g2, g3⟩ := h3 e' he''
            refine ⟨g1, List.mem_cons_of_mem _ g2, ?_⟩
            rw [containsId_append] at g3
            exact (Bool.or_eq_false_iff.mp g3).1
        · intro j hj hrow
          rcases List.mem_cons.mp hj with rfl | hj'
          · rw [h1, containsId_append, containsId_append]
            have : containsId [e] j = true := by simp [containsId, heid]
            rw [this]
            simp
          · exact h4 j hj' hrow
        · intro hnd
          apply h5
          rw [List.map_append, List.nodup_append]
          refine ⟨hnd, by simp, ?_⟩
          intro x hx hx2
          obtain ⟨e', he', heq⟩ := List.mem_map.mp hx
          have hxe : x = e.id := by simpa using hx2
          exact hc (heid ▸ containsId_iff.mpr ⟨e', he', heq.trans hxe⟩)
      | none =>
        obtain ⟨Δ, h1, h2, h3, h4, h5⟩ := addCands_spec entities cs' seen next
        have hstep : addCands entities seen next (i :: cs') =
            addCands entities seen next cs' := by
          simp [addCands, hc, hf]
        rw [hstep]
        refine ⟨Δ, h1, h2, ?_, ?_, h5⟩
        · intro e he
          obtain ⟨g1, g2, g3⟩ := h3 e he
          exact ⟨g1, List.mem_cons_of_mem _ g2, g3⟩
        · intro j hj hrow
          rcases List.mem_cons.mp hj with rfl | hj'
          · obtain ⟨e, he, heid⟩ := hrow
            have := List.find?_eq_none.mp hf e he
            simp [heid] at this
          · exact h4 j hj' hrow

/-- Every candidate id of a round is a frontier node or adjacent to one. -/
theorem mem_candidateIds_sound {rels : List RelM} {current : List Nat} {i : Nat}
    (h : i ∈ candidateIds rels current) :
    ∃ c ∈ current, c = i ∨ adjacent rels c i := by
  obtain ⟨r, hr, hmem⟩ := List.mem_flatMap.mp h
  have hsel := List.mem_filter.mp hr
  have hre : r ∈ rels := hsel.1
  have hor : current.contains r.source_entity_id = true ∨
      current.contains r.target_entity_id = true := by
    have h2 := hsel.2
    rcases Bool.or_eq_true_iff.mp h2 with h2 | h2
    · exact Or.inl h2
    · exact Or.inr h2
  have hi : i = r.source_entity_id ∨ i = r.target_entity_id := by simpa using hmem
  rcases hor with hcur | hcur
  · refine ⟨r.source_entity_id, List.elem_iff.mp hcur, ?_⟩
    rcases hi with rfl | rfl
    · exact Or.inl rfl
    · exact Or.inr ⟨r, hre, Or.inl ⟨rfl, rfl⟩⟩
  · refine ⟨r.target_entity_id, List.elem_iff.mp hcur, ?_⟩
    rcases hi with rfl | rfl
    · exact Or.inr ⟨r, hre, Or.inr ⟨rfl, rfl⟩⟩
    · exact Or.inl rfl

/-- A neighbour of a frontier node is among the round's candidates. -/
theorem mem_candidateIds_complete {rels : List RelM} {current : List Nat}
    {c x : Nat} (hc : c ∈ current) (hadj : adjacent rels c x) :
    x ∈ candidateIds rels current := by
  obtain ⟨r, hr, hor⟩ := hadj
  apply List.mem_flatMap.mpr
  refine ⟨r, List.mem_filter.mpr ⟨hr, ?_⟩, ?_⟩
  · apply Bool.or_eq_true_iff.mpr
    rcases hor with ⟨h1, h2⟩ | ⟨h1, h2⟩
    · exact Or.inl (List.elem_iff.mpr (by rw [h1]; exact hc))
    · exact Or.inr (List.elem_iff.mpr (by rw [h2]; exact hc))
  · rcases hor with ⟨h1, h2⟩ | ⟨h1, h2⟩
    · simp [h2]
    · simp [h1]

/-- "`a` is at most as deep as `b`" relative to a seed node. -/
def distOrder (rels : List RelM) (seed : Nat) (a b : EntityM) : Prop :=
  ∀ n, reachIn rels n seed b.id → reachIn rels n seed a.id

/-- Invariant of the BFS of `find_related_entities` after `k` rounds:
`seen` is sound and complete for the radius-`k` ball around the seed,
`current` is exactly the set of nodes at distance exactly `k`, `seen`
is ordered by ascending distance and has no duplicate ids. -/
structure BfsInv (entities : List EntityM) (rels : List RelM) (seed : Nat)
    (k : Nat) (seen : List EntityM) (current : List Nat) : Prop where
  sound : ∀ e ∈ seen, reachIn rels k seed e.id
  complete : ∀ x, reachIn rels k seed x → containsId seen x = true
  frontier : ∀ i, i ∈ current ↔
    (reachIn rels k seed i ∧ ∀ j, reachIn rels j seed i → k ≤ j)
  ordered : List.Pairwise (distOrder rels seed) seen
  nodups : (seen.map (fun e => e.id)).Nodup

/-- One BFS round advances the invariant from radius `k` to `k + 1`,
provided every relationship endpoint has an entity row. -/
theorem bfs_round {entities : List EntityM} {rels : List RelM} {seed k : Nat}
    {seen : List EntityM} {current : List Nat}
    (hwf : ∀ r ∈ rels, (∃ e ∈ entities, e.id = r.source_entity_id) ∧
      (∃ e ∈ entities, e.id = r.target_entity_id))
    (inv : BfsInv entities rels seed k seen current) :
    BfsInv entities rels seed (k + 1)
      (addCands entities seen [] (candidateIds rels current)).1
      (addCands entities seen [] (candidateIds rels current)).2 := by
  obtain ⟨Δ, h1, h2, h3, h4, h5⟩ :=
    addCands_spec entities (candidateIds rels current) seen []
  have hsoundΔ : ∀ e ∈ Δ, reachIn rels (k + 1) seed e.id := by
    intro e he
    obtain ⟨_, hcand, _⟩ := h3 e he
    obtain ⟨c, hcur, hco⟩ := mem_candidateIds_sound hcand
    have hck : reachIn rels k seed c := ((inv.frontier c).mp hcur).1
    rcases hco with rfl | hadj
    · exact reachIn_succ hck
    · exact Or.inr ⟨c, hck, hadj⟩
  have hnotk : ∀ e ∈ Δ, ¬ reachIn rels k seed e.id := by
    intro e he hk
    obtain ⟨_, _, hcont⟩ := h3 e he
    rw [inv.complete e.id hk] at hcont
    cases hcont
  have hsound : ∀ e ∈ (addCands entities seen [] (candidateIds rels current)).1,
      reachIn rels (k + 1) seed e.id := by
    rw [h1]
    intro e he
    rcases List.mem_append.mp he with he | he
    · exact reachIn_succ (inv.sound e he)
    · exact hsoundΔ e he
  have hcomplete : ∀ x, reachIn rels (k + 1) seed x →
      containsId (addCands entities seen [] (candidateIds rels current)).1 x = true := by
    intro x hx
    by_cases hxk : reachIn rels k seed x
    · rw [h1, containsId_append, inv.complete x hxk]
      rfl
    · rcases hx with hx | ⟨c, hck, hadj⟩
      · exact absurd hx hxk
      · have hcmin : ∀ j, reachIn rels j seed c → k ≤ j := by
          intro j hj
          by_contra hlt
          push_neg at hlt
          have hstep : reachIn rels (j + 1) seed x := Or.inr ⟨c, hj, hadj⟩
          exact hxk (reachIn_mono (by omega) hstep)
        have hcur : c ∈ current := (inv.frontier c).mpr ⟨hck, hcmin⟩
        have hxcand : x ∈ candidateIds rels current :=
          mem_candidateIds_complete hcur hadj
        have hrow : ∃ e ∈ entities, e.id = x := by
          obtain ⟨r, hr, hor⟩ := hadj
          rcases hor with ⟨hh1, hh2⟩ | ⟨hh1, hh2⟩
          · exact hh2 ▸ (hwf r hr).2
          · exact hh1 ▸ (hwf r hr).1
        exact h4 x hxcand hrow
  have hfrontier : ∀ i, i ∈ (addCands entities seen [] (candidateIds rels current)).2 ↔
      (reachIn rels (k + 1) seed i ∧ ∀ j, reachIn rels j seed i → k + 1 ≤ j) := by
    intro i
    rw [h2]
    simp only [List.nil_append]
    constructor
    · intro hi
      obtain ⟨e, heΔ, rfl⟩ := List.mem_map.mp hi
      refine ⟨hsoundΔ e heΔ, ?_⟩
      intro j hj
      by_contra hlt
      push_neg at hlt
      exact hnotk e heΔ (reachIn_mono (by omega) hj)
    · rintro ⟨hreach, hmin⟩
      have hnk : ¬ reachIn rels k seed i := by
        intro hk
        have := hmin k hk
        omega
      have hcont := hcomplete i hreach
      rw [h1, containsId_append] at hcont
      have hseenf : containsId seen i = false := by
        cases hsf : containsId seen i with
        | false => rfl
        | true =>
          obtain ⟨e, he, heid⟩ := containsId_iff.mp hsf
          exact absurd (heid ▸ inv.sound e he) hnk
      rw [hseenf] at hcont
      simp only [Bool.false_or] at hcont
      obtain ⟨e, he, heid⟩ := containsId_iff.mp hcont
      exact List.mem_map.mpr ⟨e, he, heid⟩
  have hminΔ : ∀ e ∈ Δ, ∀ j, reachIn rels j seed e.id → k + 1 ≤ j := by
    intro e he j hj
    by_contra hlt
    push_neg at hlt
    exact hnotk e he (reachIn_mono (by omega) hj)
  have hordered : List.Pairwise (distOrder rels seed)
      (addCands entities seen [] (candidateIds rels current)).1 := by
    rw [h1, List.pairwise_append]
    refine ⟨inv.ordered, ?_, ?_⟩
    · apply List.pairwise_of_forall_mem_list
      intro a ha b hb n hn
      have := hminΔ b hb n hn
      exact reachIn_mono this (hsoundΔ a ha)
    · intro a ha b hb n hn
      have := hminΔ b hb n hn
      exact reachIn_mono (by omega) (inv.sound a ha)
  exact ⟨hsound, hcomplete, hfrontier, hordered, h5 inv.nodups⟩

/-- Running the loop preserves soundness (radius grows by at most the fuel),
ordering by ascending distance, and distinctness. -/
theorem bfsLoop_spec (entities : List EntityM) (rels : List RelM) (seed : Nat)
    (hwf : ∀ r ∈ rels, (∃ e ∈ entities, e.id = r.source_entity_id) ∧
      (∃ e ∈ entities, e.id = r.target_entity_id)) :
    ∀ (fuel k : Nat) (seen : List EntityM) (current : List Nat),
      BfsInv entities rels seed k seen current →
      (∀ e ∈ bfsLoop entities rels fuel seen current,
        reachIn rels (k + fuel) seed e.id)
      ∧ List.Pairwise (distOrder rels seed) (bfsLoop entities rels fuel seen current)
      ∧ ((bfsLoop entities rels fuel seen current).map (fun e => e.id)).Nodup := by
  intro fuel
  induction fuel with
  | zero =>
    intro k seen current inv
    have h0 : bfsLoop entities rels 0 seen current = seen := rfl
    rw [h0]
    exact ⟨fun e he => by simpa using inv.sound e he, inv.ordered, inv.nodups⟩
  | succ fuel ih =>
    intro k seen current inv
    have hround := bfs_round hwf inv
    rcases hA : addCands entities seen [] (candidateIds rels current) with ⟨seen2, next⟩
    rw [hA] at hround
    by_cases hne : next.isEmpty = true
    · have hres : bfsLoop entities rels (fuel + 1) seen current = seen2 := by
        simp [bfsLoop, hA, hne]
      rw [hres]
      exact ⟨fun e he => reachIn_mono (by omega) (hround.sound e he),
        hround.ordered, hround.nodups⟩
    · have hres : bfsLoop entities rels (fuel + 1) seen current =
          bfsLoop entities rels fuel seen2 next := by
        simp [bfsLoop, hA, hne]
      rw [hres]
      have hrec := ih (k + 1) seen2 next hround
      exact ⟨fun e he => reachIn_mono (by omega) (hrec.1 e he),
        hrec.2.1, hrec.2.2⟩

/-- Claim C5: when a seed entity is found, `find_related_entities` (on a
store whose relationship endpoints all have entity rows) returns only nodes
within graph distance `max_depth` of the seed (undirected), ordered by
ascending distance (each entity reaches the seed at least as fast as any
later one), with no duplicate ids; with no seed match it returns `[]`. -/
theorem c5_bounded_expansion (st : Store) (entity_name : String)
    (max_depth : Nat) (hwf : wfStore st) :
    (st.entities.find? (fun e => substrCI entity_name e.name) = none →
      find_related_entities st entity_name max_depth = [])
    ∧ (∀ e0, st.entities.find? (fun e => substrCI entity_name e.name) = some e0 →
      (∀ e ∈ find_related_entities st entity_name max_depth,
        reachIn st.relationships max_depth e0.id e.id)
      ∧ List.Pairwise (distOrder st.relationships e0.id)
          (find_related_entities st entity_name max_depth)
      ∧ ((find_related_entities st entity_name max_depth).map (fun e => e.id)).Nodup) := by
  constructor
  · intro h
    simp [find_related_entities, h]
  · intro e0 h
    have hres : find_related_entities st entity_name max_depth =
        bfsLoop st.entities st.relationships max_depth [e0] [e0.id] := by
      simp [find_related_entities, h]
    rw [hres]
    have inv0 : BfsInv st.entities st.relationships e0.id 0 [e0] [e0.id] := by
      refine ⟨?_, ?_, ?_, ?_, ?_⟩
      · intro e he
        rw [List.mem_singleton.mp he]
        rfl
      · intro x hx
        have hx' : x = e0.id := hx
        simp [containsId, hx']
      · intro i
        constructor
        · intro hi
          rw [List.mem_singleton.mp hi]
          exact ⟨rfl, fun j _ => Nat.zero_le j⟩
        · rintro ⟨h1, _⟩
          have h1' : i = e0.id := h1
          simp [h1']
      · simp
      · simp
    have hmain := bfsLoop_spec st.entities st.relationships e0.id hwf
      max_depth 0 [e0] [e0.id] inv0
    simpa using hmain

/-- Claim C5 witness: a path graph `A — B — C`; the hypotheses (store
well-formedness, seed resolution) are discharged concretely at depth 2. -/
theorem c5_bounded_expansion_witness :
    wfStore ⟨[], [⟨1, "A", "T", none, 1⟩, ⟨2, "B", "T", none, 1⟩, ⟨3, "C", "T", none, 1⟩],
      [⟨"r", none, 1, 2⟩, ⟨"r", none, 2, 3⟩], 4⟩ ∧
    ((find_related_entities ⟨[], [⟨1, "A", "T", none, 1⟩, ⟨2, "B", "T", none, 1⟩,
        ⟨3, "C", "T", none, 1⟩], [⟨"r", none, 1, 2⟩, ⟨"r", none, 2, 3⟩], 4⟩
      "A" 2).map (fun e => e.id)).Nodup ∧
    (∀ e ∈ find_related_entities ⟨[], [⟨1, "A", "T", none, 1⟩, ⟨2, "B", "T", none, 1⟩,
        ⟨3, "C", "T", none, 1⟩], [⟨"r", none, 1, 2⟩, ⟨"r", none, 2, 3⟩], 4⟩
      "A" 2, reachIn [⟨"r", none, 1, 2⟩, ⟨"r", none, 2, 3⟩] 2 1 e.id) :=
  ⟨by decide,
   ((c5_bounded_expansion _ "A" 2 (by decide)).2 ⟨1, "A", "T", none, 1⟩ (by decide)).2.2,
   ((c5_bounded_expansion _ "A" 2 (by decide)).2 ⟨1, "A", "T", none, 1⟩ (by decide)).1⟩

end HybridRAG
